import Mathlib

/-!
Verification of the `intervalset` library (file `intervalset.py`): a shallow
embedding of the `Interval` algebra and the `IntervalSet` normalization and
set-algebra code, over `Int` endpoints, together with theorems checking the
specification's claims against this embedding.

Modelling notes, established by reading the source:

* `Interval` subclasses a namedtuple.  Its `__new__` reads
  `if EMPTY_INTERVAL is not None and begin is None or end is None or end < begin`,
  which Python parses as
  `((EMPTY_INTERVAL is not None) and (begin is None)) or (end is None) or (end < begin)`.
  During the bootstrap call `EMPTY_INTERVAL = Interval(None, None)` the
  global is still `None` and `end is None` holds, so `__new__` returns the
  current value of `EMPTY_INTERVAL`, i.e. `None`.  Hence after module load
  `EMPTY_INTERVAL` is the Python value `None`, not an `Interval` instance.
  The embedding represents that runtime value by the constructor
  `Interval.empty`.

* Because the empty value is `None`:
  - comparing it against an interval (as `sorted` does) raises `TypeError`;
  - `None & x`, `None | x`, `x in None` raise `TypeError` (no such methods
    on `NoneType`, and namedtuples define no reflected variants);
  - `isinstance(EMPTY_INTERVAL, Interval)` is `False`;
  - a real `Interval` instance is always truthy (`self is not EMPTY_INTERVAL`),
    including degenerate instances `Interval(x, x)` (the factory only maps
    `end < begin` to the empty value).

* Fallible steps are embedded in `Except PyErr`; the Python exception class
  is recorded in the error value.
-/

set_option maxRecDepth 40000

namespace Intervalset

/-- A runtime value that may sit where the source expects an interval:
either the value of `EMPTY_INTERVAL` (which is the Python value `None`, see
module notes) or a real `Interval(begin, end)` namedtuple instance. -/
inductive Interval where
  | empty : Interval
  | mk (b e : Int) : Interval
deriving DecidableEq, Repr

/-- Python exception classes that the embedded code can raise. -/
inductive PyErr where
  | typeError
  | valueError
  | attributeError
  | internalError
  | nonTermination
deriving DecidableEq, Repr

/-- The module constant `EMPTY_INTERVAL`: the bootstrap assignment leaves it
bound to the Python value `None` (see module notes). -/
def EMPTY_INTERVAL : Interval := .empty

/-- `Interval.__new__(begin, end)` after module load, for present (non-`None`)
endpoints: since `EMPTY_INTERVAL is not None` is false at runtime, the
condition reduces to `end < begin`, which yields `EMPTY_INTERVAL` (= `None`);
otherwise a real instance is created.  Equal endpoints are NOT mapped to the
empty value. -/
def Interval.new (b e : Int) : Interval :=
  if e < b then .empty else .mk b e

/-- `Interval.__bool__`: `self is not EMPTY_INTERVAL`.  A real instance is
truthy; the empty value (`None`) is falsy. -/
def Interval.tru : Interval → Bool
  | .empty => false
  | .mk _ _ => true

/-- Endpoint invariant of every factory-produced value: a real instance always
has `begin ≤ end` (the factory maps `end < begin` to the empty value). -/
def Interval.Valid : Interval → Prop
  | .empty => True
  | .mk b e => b ≤ e

instance : (iv : Interval) → Decidable (Interval.Valid iv)
  | .empty => .isTrue trivial
  | .mk b e => inferInstanceAs (Decidable (b ≤ e))

/-- `Interval.__and__` (`self & other`).  Calling it with the empty value as
left operand is `None & other`: `NoneType` has no `__and__` and the namedtuple
has no `__rand__`, so Python raises `TypeError`.  On a real instance the body
runs: empty/`non-overlap` guards first (`not other` is checked before any
attribute of `other` is read), then the two nesting short-circuits, then the
proper-overlap case `Interval(max(begins), min(ends))` through the factory. -/
def Interval.iand : Interval → Interval → Except PyErr Interval
  | .empty, _ => .error .typeError
  | .mk b1 e1, other =>
    match other with
    | .empty => .ok .empty
    | .mk b2 e2 =>
      if e1 ≤ b2 ∨ e2 ≤ b1 then .ok .empty
      else if b1 ≥ b2 ∧ e1 ≤ e2 then .ok (.mk b1 e1)
      else if b2 ≥ b1 ∧ e2 ≤ e1 then .ok (.mk b2 e2)
      else .ok (Interval.new (max b1 b2) (min e1 e2))

/-- `Interval.__or__` (`self | other`).  With the empty value (`None`) as left
operand Python raises `TypeError` before the method can run; on a real
instance the guard `not self or not other or self.end < other.begin or
other.end < self.begin` raises `ValueError` ("Cannot unify non-overlapping
intervals"), then nesting short-circuits, then `Interval(min(begins),
max(ends))` through the factory. -/
def Interval.ior : Interval → Interval → Except PyErr Interval
  | .empty, _ => .error .typeError
  | .mk b1 e1, other =>
    match other with
    | .empty => .error .valueError
    | .mk b2 e2 =>
      if e1 < b2 ∨ e2 < b1 then .error .valueError
      else if b1 ≥ b2 ∧ e1 ≤ e2 then .ok (.mk b2 e2)
      else if b2 ≥ b1 ∧ e2 ≤ e1 then .ok (.mk b1 e1)
      else .ok (Interval.new (min b1 b2) (max e1 e2))

/-- `Interval.__contains__` (`other in self`).  With the empty value as `self`
this is `other in None`, a `TypeError` (`NoneType` is not iterable).  On a
real instance: an empty `other` is never contained; otherwise closed-interval
inclusion `other.begin >= self.begin and other.end <= self.end`. -/
def Interval.containsI : Interval → Interval → Except PyErr Bool
  | .empty, _ => .error .typeError
  | .mk b1 e1, other =>
    match other with
    | .empty => .ok false
    | .mk b2 e2 => .ok (decide (b2 ≥ b1 ∧ e2 ≤ e1))

/-- `Interval.is_before_than`.  Called on the empty value (`None`) it would be
an `AttributeError`; on a real instance `self is EMPTY_INTERVAL` is always
false (the instance is not `None`), so the result is
`other is EMPTY_INTERVAL or self.end < other.begin`. -/
def Interval.is_before_than : Interval → Interval → Except PyErr Bool
  | .empty, _ => .error .attributeError
  | .mk _ e1, other =>
    match other with
    | .empty => .ok true
    | .mk b2 _ => .ok (decide (e1 < b2))

/-- The comparison `x < y` used by `sorted` on the constructor arguments:
namedtuple (tuple) comparison, which is lexicographic on `(begin, end)` for
two real instances and raises `TypeError` as soon as the empty value (`None`)
is compared with anything (including another `None`). -/
def pyLt : Interval → Interval → Except PyErr Bool
  | .empty, _ => .error .typeError
  | .mk _ _, .empty => .error .typeError
  | .mk b1 e1, .mk b2 e2 => .ok (decide (b1 < b2 ∨ (b1 = b2 ∧ e1 < e2)))

/-- Insertion of one element into an already-sorted list using the `<` of
`pyLt`, propagating comparison errors.  Together with `pySorted` this models
`sorted(items)`: on error-free inputs any comparison sort returns the same
list (the order is total and ties are value-equal), and a `TypeError` occurs
exactly when the empty value meets another element. -/
def pyInsert (x : Interval) : List Interval → Except PyErr (List Interval)
  | [] => .ok [x]
  | y :: ys =>
    match pyLt x y with
    | .error err => .error err
    | .ok true => .ok (x :: y :: ys)
    | .ok false =>
      match pyInsert x ys with
      | .error err => .error err
      | .ok r => .ok (y :: r)

/-- `sorted(items)`: see `pyInsert`. -/
def pySorted : List Interval → Except PyErr (List Interval)
  | [] => .ok []
  | x :: xs =>
    match pySorted xs with
    | .error err => .error err
    | .ok r => pyInsert x r

/-- The first loop of `_fill_items`: `i1 = None; for i1 in it: if i1: break`.
Returns the value `i1` holds after the loop together with the items not yet
consumed: the first truthy element and the rest after it, or, when no element
is truthy, the last element (or the initial `None` for an empty list) with
nothing remaining. -/
def skipEmpty : List Interval → Interval × List Interval
  | [] => (.empty, [])
  | x :: rest =>
    if x.tru then (x, rest)
    else
      match rest with
      | [] => (x, [])
      | _ :: _ => skipEmpty rest

/-- `i1.end == i2.begin` in the sweep of `_fill_items`: attribute access, so
both operands must be real instances. -/
def endEqBegin : Interval → Interval → Except PyErr Bool
  | .mk _ e1, .mk b2 _ => .ok (decide (e1 = b2))
  | _, _ => .error .attributeError

/-- The second loop of `_fill_items` plus the trailing
`if i1: _items.append(i1)`: sweep the remaining sorted items, emitting `i1`
when it is completely before the next item, unifying when they overlap
(truthy `i1 & i2`) or touch (`i1.end == i2.begin`), and raising
`Exception("Internal error")` otherwise. -/
def sweepLoop : Interval → List Interval → Except PyErr (List Interval)
  | i1, [] => .ok (if i1.tru then [i1] else [])
  | i1, i2 :: rest =>
    match Interval.is_before_than i1 i2 with
    | .error err => .error err
    | .ok true =>
      match sweepLoop i2 rest with
      | .error err => .error err
      | .ok r => .ok (i1 :: r)
    | .ok false =>
      match Interval.iand i1 i2 with
      | .error err => .error err
      | .ok v =>
        match (if v.tru then .ok true else endEqBegin i1 i2 : Except PyErr Bool) with
        | .error err => .error err
        | .ok true =>
          match Interval.ior i1 i2 with
          | .error err => .error err
          | .ok u => sweepLoop u rest
        | .ok false => .error .internalError

/-- `IntervalSet._fill_items(items)`: for a non-empty argument tuple, sort,
skip leading falsy entries, sweep-merge; the result is the canonical `_items`
sequence of the constructed set. -/
def fill_items (items : List Interval) : Except PyErr (List Interval) :=
  match items with
  | [] => .ok []
  | _ :: _ =>
    match pySorted items with
    | .error err => .error err
    | .ok s => sweepLoop (skipEmpty s).1 (skipEmpty s).2

/-- Tuple unpacking `b, e = interval`: succeeds on a real instance (a
2-namedtuple) and raises `TypeError` on the empty value (`None` is not
iterable). -/
def unpack : Interval → Except PyErr (Int × Int)
  | .empty => .error .typeError
  | .mk b e => .ok (b, e)

/-- The `while True` loop of `IntervalSet.__sub__`, one constructor step per
iteration, driven by a fuel counter (the caller passes more fuel than the
loop can ever consume: every iteration either pops one of the two streams or
is the `i1 contains i2` case, after which the very next iteration pops).
State: current piece `[b1, e1]` of `A` with the unread tail `l1`, current
`[b2, e2]` of `B` with tail `l2`, and the emitted `new_items`.  The result
pairs `new_items` with the piece available to the trailing flush: `none`
after `b1, e1 = None, None; next(it1)` hit `StopIteration`, and
`some (b1, e1)` when `next(it2)` did. -/
def subLoop : Nat → Int → Int → List Interval → Int → Int → List Interval →
    List Interval → Except PyErr (List Interval × Option (Int × Int))
  | 0, _, _, _, _, _, _, _ => .error .nonTermination
  | fuel + 1, b1, e1, l1, b2, e2, l2, acc =>
    if b1 ≥ e1 then
      match l1 with
      | [] => .ok (acc, Option.none)
      | x :: l1' =>
        match unpack x with
        | .error err => .error err
        | .ok (b1', e1') => subLoop fuel b1' e1' l1' b2 e2 l2 acc
    else if e1 ≤ b2 then
      match l1 with
      | [] => .ok (acc ++ [Interval.new b1 e1], Option.none)
      | x :: l1' =>
        match unpack x with
        | .error err => .error err
        | .ok (b1', e1') => subLoop fuel b1' e1' l1' b2 e2 l2 (acc ++ [Interval.new b1 e1])
    else if e2 ≤ b1 then
      match l2 with
      | [] => .ok (acc, some (b1, e1))
      | y :: l2' =>
        match unpack y with
        | .error err => .error err
        | .ok (b2', e2') => subLoop fuel b1 e1 l1 b2' e2' l2' acc
    else if b1 < b2 ∧ b2 ≤ e1 ∧ e1 ≤ e2 then
      match l1 with
      | [] => .ok (acc ++ [Interval.new b1 b2], Option.none)
      | x :: l1' =>
        match unpack x with
        | .error err => .error err
        | .ok (b1', e1') => subLoop fuel b1' e1' l1' b2 e2 l2 (acc ++ [Interval.new b1 b2])
    else if b2 ≤ b1 ∧ b1 ≤ e2 ∧ e2 < e1 then
      match l2 with
      | [] => .ok (acc, some (e2, e1))
      | y :: l2' =>
        match unpack y with
        | .error err => .error err
        | .ok (b2', e2') => subLoop fuel e2 e1 l1 b2' e2' l2' acc
    else if b2 ≤ b1 ∧ b1 ≤ e1 ∧ e1 ≤ e2 then
      match l1 with
      | [] => .ok (acc, Option.none)
      | x :: l1' =>
        match unpack x with
        | .error err => .error err
        | .ok (b1', e1') => subLoop fuel b1' e1' l1' b2 e2 l2 acc
    else if b1 < b2 ∧ b2 ≤ e2 ∧ e2 ≤ e1 then
      subLoop fuel e2 e1 l1 b2 e2 l2 (acc ++ [Interval.new b1 b2])
    else
      .error .nonTermination

/-- `IntervalSet.__sub__`, with each operand given by its canonical `_items`
sequence.  Empty operands short-circuit; otherwise the two streams are walked
by `subLoop`; after the loop, `if b1 and e1 and b1 < e1` appends the last
piece — note the Python truthiness tests: a cursor or endpoint equal to `0`
is falsy and suppresses the flush.  The collected items are fed through the
normalizing constructor (`IntervalSet(*new_items)`). -/
def setSub (a b : List Interval) : Except PyErr (List Interval) :=
  match a, b with
  | [], _ => .ok []
  | _ :: _, [] => .ok a
  | x :: l1, y :: l2 =>
    match unpack x, unpack y with
    | .error err, _ => .error err
    | .ok _, .error err => .error err
    | .ok (b1, e1), .ok (b2, e2) =>
      match subLoop (2 * (a.length + b.length) + 8) b1 e1 l1 b2 e2 l2 [] with
      | .error err => .error err
      | .ok (acc, fl) =>
        let new_items := acc ++
          (match fl with
           | some (x1, y1) =>
             if x1 ≠ 0 ∧ y1 ≠ 0 ∧ x1 < y1 then [Interval.new x1 y1] else []
           | Option.none => [])
        fill_items new_items

/-- CPython's hash of an `int` (PYTHONHASHSEED-independent): reduction modulo
`2^61 - 1` keeping the sign, with `-1` remapped to `-2`. -/
def pyHashInt (n : Int) : Int :=
  let h : Int := if 0 ≤ n then n % (2 ^ 61 - 1) else -((-n) % (2 ^ 61 - 1))
  if h = -1 then -2 else h

/-- Left-rotation by 31 of a 64-bit word (argument below `2^64`). -/
def rotl31 (a : Nat) : Nat :=
  a * 2 ^ 31 % 2 ^ 64 + a / 2 ^ 33

/-- Reinterpretation of a signed hash value as an unsigned 64-bit word
(`Py_uhash_t`). -/
def u64 (n : Int) : Nat := (n % (2 : Int) ^ 64).toNat

/-- The accumulator loop of CPython's tuple hash (the xxHash-based scheme):
`acc += lane * P2; acc = rotl(acc, 31); acc *= P1`, all modulo `2^64`. -/
def tupleHashLoop : Nat → List Int → Nat
  | acc, [] => acc
  | acc, h :: t =>
    let acc1 : Nat := (acc + u64 h * 14029467366897019727) % 2 ^ 64
    let acc2 : Nat := rotl31 acc1 * 11400714785074694791 % 2 ^ 64
    tupleHashLoop acc2 t

/-- CPython's hash of a tuple, given the hashes of its elements: run the
accumulator loop from `P5`, mix in the length, remap the reserved value, and
reinterpret the 64-bit word as a signed integer.  (Checked against CPython:
it reproduces e.g. `hash((1, 2))` exactly.) -/
def pyHashTuple (lanes : List Int) : Int :=
  let acc : Nat := (tupleHashLoop 2870177450012600261 lanes +
    Nat.xor lanes.length (Nat.xor 2870177450012600261 3527539)) % 2 ^ 64
  let acc : Nat := if acc = 2 ^ 64 - 1 then 1546275796 else acc
  if acc < 2 ^ 63 then (acc : Int) else (acc : Int) - 2 ^ 64

/-- Result of `hash(None)`: not determined by the repository or by the
language specification (identity-based before CPython 3.12), so a fixed
stand-in value is used; the empty value is never a member of a constructed
set and no theorem below depends on this value. -/
def pyHashNone : Int := 0

/-- Hash of one member: a namedtuple hashes like the tuple `(begin, end)`. -/
def Interval.pyHash : Interval → Int
  | .empty => pyHashNone
  | .mk b e => pyHashTuple [pyHashInt b, pyHashInt e]

/-- `IntervalSet.__hash__`: `hash(self._items)`, the tuple hash over the
member hashes (the `_hash` cache is a pure memoization). -/
def IntervalSet.pyHash (items : List Interval) : Int :=
  pyHashTuple (items.map Interval.pyHash)

/-- `IntervalSet.__eq__`: `hash(self) == hash(other)` — equality of the two
cached hashes, not of the sequences themselves. -/
def IntervalSet.eq (s t : List Interval) : Bool :=
  IntervalSet.pyHash s == IntervalSet.pyHash t

/-- Result of `IntervalSet() == EMPTY_INTERVAL`, i.e. `hash(()) == hash(None)`:
depends on `hash(None)` (see `pyHashNone`), so a fixed stand-in; no theorem
below depends on it. -/
def emptySetVsNoneEq : Bool := false

/-- The member scan of `IntervalSet.__contains__` for a real `Interval`
query: `for item in self: if other in item: return True`. -/
def containsScan (q : Interval) : List Interval → Except PyErr Bool
  | [] => .ok false
  | item :: rest =>
    match Interval.containsI item q with
    | .error err => .error err
    | .ok true => .ok true
    | .ok false => containsScan q rest

/-- `IntervalSet.__contains__(other)` with `other` an interval-or-empty
value.  A real instance passes `isinstance(other, Interval)` and is looked up
by the member scan.  The empty value is `None`, which fails the isinstance
test, so the set-containment branch `(self & other) == other` runs instead:
`IntervalSet.__and__` returns its falsy argument (`if not other: return
other`), giving `None == None`, i.e. `True`, whenever the set itself is
truthy; for an empty set `self & other` returns `self` and the comparison is
`IntervalSet() == None` (see `emptySetVsNoneEq`). -/
def IntervalSet.containsQ (items : List Interval) (q : Interval) : Except PyErr Bool :=
  match q with
  | .mk _ _ => containsScan q items
  | .empty => .ok (if items.isEmpty then emptySetVsNoneEq else true)

/-- Begin projection, for stating order properties of member sequences (all
members of interest are real instances). -/
def Interval.bgn : Interval → Int
  | .empty => 0
  | .mk b _ => b

/-- End projection, companion of `Interval.bgn`. -/
def Interval.fin : Interval → Int
  | .empty => 0
  | .mk _ e => e

/-- The total order in which `sorted` arranges real instances: lexicographic
`(begin, end)`, non-strict. -/
def ile (i j : Interval) : Prop :=
  i.bgn < j.bgn ∨ (i.bgn = j.bgn ∧ i.fin ≤ j.fin)

/-- Adjacent members neither overlap nor touch: `i.end < j.begin`. -/
def sep (i j : Interval) : Prop := i.fin < j.bgn

/-- Members are strictly increasing by `begin`. -/
def bgnLt (i j : Interval) : Prop := i.bgn < j.bgn

instance : DecidableRel ile := fun i j =>
  inferInstanceAs (Decidable (i.bgn < j.bgn ∨ (i.bgn = j.bgn ∧ i.fin ≤ j.fin)))

instance : DecidableRel sep := fun i j =>
  inferInstanceAs (Decidable (i.fin < j.bgn))

instance : DecidableRel bgnLt := fun i j =>
  inferInstanceAs (Decidable (i.bgn < j.bgn))

instance {ε α : Type} [DecidableEq ε] [DecidableEq α] : DecidableEq (Except ε α) :=
  fun a b =>
    match a, b with
    | .ok x, .ok y =>
      if h : x = y then .isTrue (h ▸ rfl) else .isFalse (fun hh => h (by injection hh))
    | .error x, .error y =>
      if h : x = y then .isTrue (h ▸ rfl) else .isFalse (fun hh => h (by injection hh))
    | .ok _, .error _ => .isFalse (fun hh => Except.noConfusion hh)
    | .error _, .ok _ => .isFalse (fun hh => Except.noConfusion hh)

/-! ### Theorems -/

theorem Interval.bgn_mk (b e : Int) : (Interval.mk b e).bgn = b := rfl

theorem Interval.fin_mk (b e : Int) : (Interval.mk b e).fin = e := rfl

theorem Interval.tru_mk (b e : Int) : (Interval.mk b e).tru = true := rfl

/-- C1: the claim says `A - B` flushes, on exhaustion of either stream, the
in-flight piece `[cursor, e1]` and every unvisited interval of `A`.  The code
does neither reliably: when `B` exhausts, only the in-flight piece is
appended and the whole unvisited tail of `A` is dropped
(`{[0,1],[2,3],[4,5]} - {[0,1]}` loses `[4,5]`), and the trailing
`if b1 and e1 and b1 < e1` guard treats a cursor or endpoint equal to `0` as
falsy, dropping even the in-flight piece (`{[0,5]} - {[-2,-1]}` returns the
empty set instead of `{[0,5]}`). -/
theorem C1_sub_drops_remaining_a :
    setSub [Interval.mk 0 1, Interval.mk 2 3, Interval.mk 4 5] [Interval.mk 0 1] =
      .ok [Interval.mk 2 3] ∧
    setSub [Interval.mk 0 5] [Interval.mk (-2) (-1)] = .ok [] :=
  ⟨rfl, rfl⟩

/-- C2: the claim says constructing an `IntervalSet` from any collection
succeeds with Empty entries ignored.  In the code `EMPTY_INTERVAL` is the
Python value `None` (bootstrap guard of `Interval.__new__`), so `sorted`
compares it with a real interval and raises `TypeError` whenever an Empty
entry occurs together with any other item; construction fails instead of
ignoring the entry. -/
theorem C2_construction_with_empty_raises :
    fill_items [EMPTY_INTERVAL, Interval.mk 1 2] = .error .typeError := rfl

/-- C3: the claim says `Empty < x` holds for every non-empty interval `x` and
the comparison does not fail.  The comparison `sorted` uses is namedtuple
`<`, and the empty value is `None`, so the comparison raises `TypeError`
instead of returning true. -/
theorem C3_empty_comparison_raises :
    pyLt EMPTY_INTERVAL (Interval.mk 0 1) = .error .typeError := rfl

/-- C4 counterexample: `Interval(5, 5) & Interval(4, 6)` returns
`Interval(5, 5)` itself (a truthy instance, not the Empty value), and
`Interval(5, 5) | Interval(4, 6)` succeeds, returning `Interval(4, 6)` —
both against the claim that `Interval(x, x)` behaves exactly as Empty would
(Empty on intersection, invalid-union error on union). -/
theorem C4_degenerate_not_empty_cex :
    Interval.iand (Interval.mk 5 5) (Interval.mk 4 6) = .ok (Interval.mk 5 5) ∧
    Interval.iand (Interval.mk 5 5) (Interval.mk 4 6) ≠ .ok EMPTY_INTERVAL ∧
    Interval.ior (Interval.mk 5 5) (Interval.mk 4 6) = .ok (Interval.mk 4 6) := by
  refine ⟨rfl, ?_, rfl⟩
  decide

/-- C5: the claim says two `IntervalSet`s compare equal iff their member
sequences are identical.  `IntervalSet.__eq__` compares cached hashes, and
CPython's `int` hash is reduction modulo `2^61 - 1`, so
`IntervalSet(Interval(2^61, 2^61 + 1))` and `IntervalSet(Interval(1, 2))`
hash identically and compare equal although their sequences differ. -/
theorem C5_eq_is_hash_equality :
    IntervalSet.eq [Interval.mk (2 ^ 61) (2 ^ 61 + 1)] [Interval.mk 1 2] = true ∧
    [Interval.mk (2 ^ 61) (2 ^ 61 + 1)] ≠ [Interval.mk (1 : Int) 2] := by
  refine ⟨by decide, by decide⟩

/-- C7 counterexample: `Interval(5, 5)` is truthy (non-empty in the code's
own sense), yet `a & a` yields the Empty value rather than `a`; and with the
Empty value as left operand `&` raises `TypeError` instead of returning
Empty, which also breaks commutativity (`x & Empty` is Empty). -/
theorem C7_intersection_cex :
    Interval.iand (Interval.mk 5 5) (Interval.mk 5 5) = .ok EMPTY_INTERVAL ∧
    Interval.iand (Interval.mk 5 5) (Interval.mk 5 5) ≠ .ok (Interval.mk 5 5) ∧
    (Interval.mk 5 5).tru = true ∧
    Interval.iand EMPTY_INTERVAL (Interval.mk 1 2) = .error .typeError ∧
    Interval.iand (Interval.mk 1 2) EMPTY_INTERVAL = .ok EMPTY_INTERVAL := by
  refine ⟨rfl, by decide, rfl, rfl, rfl⟩

/-- C8: the claim says pairwise union raises the invalid-union error
(`ValueError`) exactly when an operand is Empty or there is a strict gap.
With the Empty value (`None`) as LEFT operand, Python raises `TypeError`
(no `__or__` on `NoneType`, no `__ror__` on the namedtuple) before the
method's own `ValueError` guard can run; the right-Empty case does raise
`ValueError` as claimed. -/
theorem C8_union_empty_left_wrong_error :
    Interval.ior EMPTY_INTERVAL (Interval.mk 1 2) = .error .typeError ∧
    Interval.ior (Interval.mk 1 2) EMPTY_INTERVAL = .error .valueError ∧
    PyErr.typeError ≠ PyErr.valueError :=
  ⟨rfl, rfl, by decide⟩

/-- C9: the claim says containment involving Empty is always false.  In the
code the Empty value is `None`: `x in EMPTY_INTERVAL` raises `TypeError`
instead of returning false, and `EMPTY_INTERVAL in S` fails the
`isinstance(other, Interval)` test, falls into the set-containment branch
`(self & other) == other`, which evaluates to `None == None`, i.e. `True`,
for every non-empty set `S`. -/
theorem C9_empty_containment_wrong :
    IntervalSet.containsQ [Interval.mk 1 2] EMPTY_INTERVAL = .ok true ∧
    Interval.containsI EMPTY_INTERVAL (Interval.mk 1 2) = .error .typeError :=
  ⟨rfl, rfl⟩

/-- C4 amended: for every value `x` and every factory-valid interval
`b = [b2, e2]`, `Interval(x, x) & b` yields the Empty value unless `b`
strictly contains `x` (`b2 < x < e2`), in which case it returns
`Interval(x, x)` itself; and `Interval(x, x) | b` raises the invalid-union
error iff `x` lies outside `[b2, e2]`, otherwise returning `b`.  With an
Empty right operand, `&` yields Empty and `|` raises the invalid-union
error, as Empty would. -/
theorem C4_degenerate_ops_amended (x b2 e2 : Int) (h : b2 ≤ e2) :
    Interval.iand (Interval.mk x x) (Interval.mk b2 e2) =
      .ok (if b2 < x ∧ x < e2 then Interval.mk x x else Interval.empty) ∧
    Interval.ior (Interval.mk x x) (Interval.mk b2 e2) =
      (if x < b2 ∨ e2 < x then .error .valueError else .ok (Interval.mk b2 e2)) ∧
    Interval.iand (Interval.mk x x) EMPTY_INTERVAL = .ok EMPTY_INTERVAL ∧
    Interval.ior (Interval.mk x x) EMPTY_INTERVAL = .error .valueError := by
  refine ⟨?_, ?_, rfl, rfl⟩
  · simp only [Interval.iand, Interval.new]
    split_ifs <;> first | rfl | omega
  · simp only [Interval.ior, Interval.new]
    split_ifs <;> first | rfl | omega

theorem C4_degenerate_ops_amended_witness :
    ((4 : Int) ≤ 6) ∧
    (Interval.iand (Interval.mk 5 5) (Interval.mk 4 6) =
      .ok (if (4 : Int) < 5 ∧ (5 : Int) < 6 then Interval.mk 5 5 else Interval.empty) ∧
    Interval.ior (Interval.mk 5 5) (Interval.mk 4 6) =
      (if (5 : Int) < 4 ∨ (6 : Int) < 5 then .error .valueError else .ok (Interval.mk 4 6)) ∧
    Interval.iand (Interval.mk 5 5) EMPTY_INTERVAL = .ok EMPTY_INTERVAL ∧
    Interval.ior (Interval.mk 5 5) EMPTY_INTERVAL = .error .valueError) :=
  ⟨by decide, C4_degenerate_ops_amended 5 4 6 (by decide)⟩

/-- C7 amended: pairwise intersection is commutative whenever both operands
are real instances; `a & a == a` for every interval with `begin < end`,
while a degenerate `Interval(x, x) & Interval(x, x)` yields the Empty value;
intersecting disjoint or touching real intervals yields Empty, and so does
intersecting with the Empty value as RIGHT operand — but with the Empty
value (`None`) as left operand `&` raises `TypeError`. -/
theorem C7_intersection_amended (b1 e1 b2 e2 : Int) (h1 : b1 ≤ e1) (h2 : b2 ≤ e2) :
    Interval.iand (Interval.mk b1 e1) (Interval.mk b2 e2) =
      Interval.iand (Interval.mk b2 e2) (Interval.mk b1 e1) ∧
    (b1 < e1 → Interval.iand (Interval.mk b1 e1) (Interval.mk b1 e1) = .ok (Interval.mk b1 e1)) ∧
    (e1 ≤ b2 → Interval.iand (Interval.mk b1 e1) (Interval.mk b2 e2) = .ok EMPTY_INTERVAL) ∧
    Interval.iand (Interval.mk b1 e1) EMPTY_INTERVAL = .ok EMPTY_INTERVAL ∧
    Interval.iand EMPTY_INTERVAL (Interval.mk b2 e2) = .error .typeError := by
  refine ⟨?_, ?_, ?_, rfl, rfl⟩
  · simp only [Interval.iand, Interval.new]
    split_ifs <;> first | rfl | omega |
      (simp only [Except.ok.injEq, Interval.mk.injEq]; constructor <;> omega)
  · intro hlt
    simp only [Interval.iand]
    split_ifs <;> first | rfl | omega
  · intro hle
    simp only [Interval.iand]
    split_ifs <;> first | rfl | omega

theorem C7_intersection_amended_witness :
    ((1 : Int) ≤ 3) ∧ ((2 : Int) ≤ 5) ∧
    (Interval.iand (Interval.mk 1 3) (Interval.mk 2 5) =
      Interval.iand (Interval.mk 2 5) (Interval.mk 1 3) ∧
    ((1 : Int) < 3 → Interval.iand (Interval.mk 1 3) (Interval.mk 1 3) = .ok (Interval.mk 1 3)) ∧
    ((3 : Int) ≤ 2 → Interval.iand (Interval.mk 1 3) (Interval.mk 2 5) = .ok EMPTY_INTERVAL) ∧
    Interval.iand (Interval.mk 1 3) EMPTY_INTERVAL = .ok EMPTY_INTERVAL ∧
    Interval.iand EMPTY_INTERVAL (Interval.mk 2 5) = .error .typeError) :=
  ⟨by decide, by decide, C7_intersection_amended 1 3 2 5 (by decide) (by decide)⟩

theorem ile_trans {i j k : Interval} (h1 : ile i j) (h2 : ile j k) : ile i k := by
  unfold ile at *
  omega

theorem pyInsert_mem : ∀ (l : List Interval) (x : Interval) (s : List Interval),
    pyInsert x l = .ok s → s.length = l.length + 1 ∧ ∀ z, z ∈ s ↔ z = x ∨ z ∈ l := by
  intro l
  induction l with
  | nil =>
    intro x s h
    simp only [pyInsert] at h
    injection h with h
    subst h
    simp
  | cons y ys ih =>
    intro x s h
    simp only [pyInsert] at h
    split at h
    · exact Except.noConfusion h
    · injection h with h
      subst h
      refine ⟨by simp, ?_⟩
      intro z
      simp only [List.mem_cons]
    · split at h
      · exact Except.noConfusion h
      · rename_i r hr
        injection h with h
        subst h
        obtain ⟨hlen, hmem⟩ := ih x r hr
        refine ⟨by simp [hlen], ?_⟩
        intro z
        simp only [List.mem_cons, hmem z]
        tauto

theorem pyInsert_sorted : ∀ (l : List Interval) (x : Interval) (s : List Interval),
    pyInsert x l = .ok s → l.Pairwise ile → s.Pairwise ile := by
  intro l
  induction l with
  | nil =>
    intro x s h _
    simp only [pyInsert] at h
    injection h with h
    subst h
    simp
  | cons y ys ih =>
    intro x s h hp
    rw [List.pairwise_cons] at hp
    obtain ⟨hy, hys⟩ := hp
    simp only [pyInsert] at h
    split at h
    · exact Except.noConfusion h
    · rename_i heq
      injection h with h
      subst h
      have hxy : ile x y := by
        rcases x with _ | ⟨p, q⟩ <;> rcases y with _ | ⟨r, t⟩ <;>
          simp only [pyLt] at heq
        · exact Except.noConfusion heq
        · exact Except.noConfusion heq
        · exact Except.noConfusion heq
        · injection heq with heq
          rw [decide_eq_true_iff] at heq
          unfold ile
          simp only [Interval.bgn, Interval.fin]
          omega
      rw [List.pairwise_cons]
      refine ⟨?_, List.pairwise_cons.mpr ⟨hy, hys⟩⟩
      intro z hz
      rcases List.mem_cons.mp hz with rfl | hz'
      · exact hxy
      · exact ile_trans hxy (hy z hz')
    · rename_i heq
      split at h
      · exact Except.noConfusion h
      · rename_i r hr
        injection h with h
        subst h
        have hyx : ile y x := by
          rcases x with _ | ⟨p, q⟩ <;> rcases y with _ | ⟨r', t⟩ <;>
            simp only [pyLt] at heq
          · exact Except.noConfusion heq
          · exact Except.noConfusion heq
          · exact Except.noConfusion heq
          · injection heq with heq
            rw [decide_eq_false_iff_not] at heq
            unfold ile
            simp only [Interval.bgn, Interval.fin]
            omega
        rw [List.pairwise_cons]
        refine ⟨?_, ih x r hr hys⟩
        intro z hz
        rcases (pyInsert_mem ys x r hr).2 z |>.mp hz with rfl | hz'
        · exact hyx
        · exact hy z hz'

theorem pySorted_mem : ∀ (l s : List Interval), pySorted l = .ok s →
    s.length = l.length ∧ ∀ z, z ∈ s ↔ z ∈ l := by
  intro l
  induction l with
  | nil =>
    intro s h
    simp only [pySorted] at h
    injection h with h
    subst h
    simp
  | cons x xs ih =>
    intro s h
    simp only [pySorted] at h
    split at h
    · exact Except.noConfusion h
    · rename_i r hr
      obtain ⟨hlen, hmem⟩ := ih r hr
      obtain ⟨hlen2, hmem2⟩ := pyInsert_mem r x s h
      refine ⟨by simp [hlen2, hlen], ?_⟩
      intro z
      rw [hmem2 z]
      simp only [List.mem_cons, hmem z]

theorem pySorted_sorted : ∀ (l s : List Interval), pySorted l = .ok s →
    s.Pairwise ile := by
  intro l
  induction l with
  | nil =>
    intro s h
    simp only [pySorted] at h
    injection h with h
    subst h
    simp
  | cons x xs ih =>
    intro s h
    simp only [pySorted] at h
    split at h
    · exact Except.noConfusion h
    · rename_i r hr
      exact pyInsert_sorted r x s h (ih r hr)

theorem pyLt_err : ∀ {x y : Interval} {err : PyErr},
    pyLt x y = .error err → err = .typeError := by
  intro x y err h
  rcases x with _ | ⟨p, q⟩ <;> rcases y with _ | ⟨r, t⟩ <;>
    simp only [pyLt] at h
  · injection h with h; exact h.symm
  · injection h with h; exact h.symm
  · injection h with h; exact h.symm
  · exact Except.noConfusion h

theorem pyInsert_err : ∀ (l : List Interval) (x : Interval) (err : PyErr),
    pyInsert x l = .error err → err = .typeError := by
  intro l
  induction l with
  | nil =>
    intro x err h
    simp only [pyInsert] at h
    exact Except.noConfusion h
  | cons y ys ih =>
    intro x err h
    simp only [pyInsert] at h
    split at h
    · rename_i heq
      injection h with h
      subst h
      exact pyLt_err heq
    · exact Except.noConfusion h
    · split at h
      · rename_i heq
        injection h with h
        subst h
        exact ih x _ heq
      · exact Except.noConfusion h

theorem pySorted_err : ∀ (l : List Interval) (err : PyErr),
    pySorted l = .error err → err = .typeError := by
  intro l
  induction l with
  | nil =>
    intro err h
    simp only [pySorted] at h
    exact Except.noConfusion h
  | cons x xs ih =>
    intro err h
    simp only [pySorted] at h
    split at h
    · rename_i heq
      injection h with h
      subst h
      exact ih _ heq
    · exact pyInsert_err _ _ _ h

theorem pySorted_tru : ∀ (l s : List Interval), pySorted l = .ok s →
    (∀ z ∈ l, z.tru = true) ∨ l = [EMPTY_INTERVAL] := by
  intro l
  induction l with
  | nil =>
    intro s _
    left
    intro z hz
    cases hz
  | cons x xs ih =>
    intro s h
    simp only [pySorted] at h
    split at h
    · exact Except.noConfusion h
    · rename_i r hr
      cases xs with
      | nil =>
        cases x with
        | empty => right; rfl
        | mk b e =>
          left
          intro z hz
          rcases List.mem_cons.mp hz with rfl | hz'
          · rfl
          · cases hz'
      | cons y ys =>
        rcases ih r hr with htru | hsingle
        · obtain ⟨hlen, hmem⟩ := pySorted_mem (y :: ys) r hr
          cases r with
          | nil => simp at hlen
          | cons w ws =>
            simp only [pyInsert] at h
            have hxtru : x.tru = true := by
              split at h
              · exact Except.noConfusion h
              · rename_i heq
                rcases x with _ | ⟨p, q⟩
                · simp only [pyLt] at heq
                  exact Except.noConfusion heq
                · rfl
              · rename_i heq
                rcases x with _ | ⟨p, q⟩
                · simp only [pyLt] at heq
                  exact Except.noConfusion heq
                · rfl
            left
            intro z hz
            rcases List.mem_cons.mp hz with rfl | hz'
            · exact hxtru
            · exact htru z hz'
        · injection hsingle with h1 h2
          subst h1
          subst h2
          have hrval : r = [EMPTY_INTERVAL] := by
            simp only [pySorted, pyInsert] at hr
            injection hr with hr
            exact hr.symm
          subst hrval
          simp only [pyInsert, EMPTY_INTERVAL] at h
          rcases x with _ | ⟨p, q⟩ <;> simp only [pyLt] at h <;>
            exact Except.noConfusion h

theorem skipEmpty_cons_tru {x : Interval} {rest : List Interval} (h : x.tru = true) :
    skipEmpty (x :: rest) = (x, rest) := by
  cases rest <;> simp [skipEmpty, h]

theorem sweepLoop_spec : ∀ (rest : List Interval) (b1 e1 : Int),
    b1 ≤ e1 →
    (∀ z ∈ rest, ∃ b e, z = Interval.mk b e ∧ b ≤ e) →
    (Interval.mk b1 e1 :: rest).Pairwise ile →
    ∃ eh out, sweepLoop (Interval.mk b1 e1) rest = .ok (Interval.mk b1 eh :: out) ∧
      b1 ≤ eh ∧
      (∀ z ∈ Interval.mk b1 eh :: out, ∃ b e, z = Interval.mk b e ∧ b ≤ e) ∧
      (Interval.mk b1 eh :: out).Chain' sep ∧
      (Interval.mk b1 eh :: out).Chain' bgnLt := by
  intro rest
  induction rest with
  | nil =>
    intro b1 e1 hv _ _
    refine ⟨e1, [], rfl, hv, ?_, by simp, by simp⟩
    intro z hz
    rcases List.mem_cons.mp hz with rfl | hz'
    · exact ⟨b1, e1, rfl, hv⟩
    · cases hz'
  | cons i2 rest ih =>
    intro b1 e1 hv hval hpair
    obtain ⟨b2, e2, hi2, hv2⟩ := hval i2 (List.mem_cons_self i2 rest)
    subst hi2
    rw [List.pairwise_cons] at hpair
    obtain ⟨hile, hpair2⟩ := hpair
    have hile12 : b1 < b2 ∨ (b1 = b2 ∧ e1 ≤ e2) := by
      have h12 := hile _ (List.mem_cons_self _ rest)
      unfold ile at h12
      simpa using h12
    have hrestval : ∀ z ∈ rest, ∃ b e, z = Interval.mk b e ∧ b ≤ e :=
      fun z hz => hval z (List.mem_cons_of_mem _ hz)
    by_cases hbf : e1 < b2
    · have hbft : Interval.is_before_than (Interval.mk b1 e1) (Interval.mk b2 e2) =
          .ok true := by
        simp [Interval.is_before_than, hbf]
      obtain ⟨eh, out, heq, hbeh, hvout, hsep, hbgn⟩ := ih b2 e2 hv2 hrestval hpair2
      refine ⟨e1, Interval.mk b2 eh :: out, ?_, hv, ?_, ?_, ?_⟩
      · simp only [sweepLoop, hbft, heq]
      · intro z hz
        rcases List.mem_cons.mp hz with rfl | hz'
        · exact ⟨b1, e1, rfl, hv⟩
        · exact hvout z hz'
      · rw [List.chain'_cons]
        refine ⟨?_, hsep⟩
        unfold sep
        simp only [Interval.fin_mk, Interval.bgn_mk]
        exact hbf
      · rw [List.chain'_cons]
        refine ⟨?_, hbgn⟩
        unfold bgnLt
        simp only [Interval.bgn_mk]
        omega
    · have hov : b2 ≤ e1 := by omega
      have hb : b1 ≤ b2 := by omega
      have hnb : Interval.is_before_than (Interval.mk b1 e1) (Interval.mk b2 e2) =
          .ok false := by
        simp [Interval.is_before_than, hbf]
      cases hi : Interval.iand (Interval.mk b1 e1) (Interval.mk b2 e2) with
      | error err =>
        exfalso
        simp only [Interval.iand] at hi
        split_ifs at hi
      | ok v =>
        have hcond : (if v.tru then (Except.ok true : Except PyErr Bool)
            else endEqBegin (Interval.mk b1 e1) (Interval.mk b2 e2)) = .ok true := by
          simp only [Interval.iand, Interval.new] at hi
          split_ifs at hi with h1 h2 h3 h4
          · injection hi with hi
            subst hi
            have he : e1 = b2 := by omega
            simp [Interval.tru, endEqBegin, he]
          · injection hi with hi
            subst hi
            simp [Interval.tru]
          · injection hi with hi
            subst hi
            simp [Interval.tru]
          · exfalso
            omega
          · injection hi with hi
            subst hi
            simp [Interval.tru]
        cases hu : Interval.ior (Interval.mk b1 e1) (Interval.mk b2 e2) with
        | error err =>
          exfalso
          simp only [Interval.ior] at hu
          split_ifs at hu with h1
          omega
        | ok u =>
          obtain ⟨eu, hueq, heuor, heu1, heu2⟩ :
              ∃ eu, u = Interval.mk b1 eu ∧ (eu = e1 ∨ eu = e2) ∧ e1 ≤ eu ∧ e2 ≤ eu := by
            simp only [Interval.ior, Interval.new] at hu
            split_ifs at hu with h1 h2 h3 h4
            · injection hu with hu
              subst hu
              have hbb : b1 = b2 := by omega
              refine ⟨e2, ?_, Or.inr rfl, by omega, le_refl e2⟩
              rw [hbb]
            · injection hu with hu
              subst hu
              exact ⟨e1, rfl, Or.inl rfl, le_refl e1, by omega⟩
            · exfalso
              omega
            · injection hu with hu
              subst hu
              have hmin : min b1 b2 = b1 := by omega
              refine ⟨max e1 e2, ?_, by omega, by omega, by omega⟩
              rw [hmin]
          subst hueq
          have hrest2 := List.pairwise_cons.mp hpair2
          have hpair' : (Interval.mk b1 eu :: rest).Pairwise ile := by
            rw [List.pairwise_cons]
            refine ⟨?_, hrest2.2⟩
            intro z hz
            have hz1 := hile z (List.mem_cons_of_mem _ hz)
            have hz2 := hrest2.1 z hz
            obtain ⟨bz, ez, hzz, hvz⟩ := hrestval z hz
            subst hzz
            unfold ile at hz1 hz2 ⊢
            simp only [Interval.bgn_mk, Interval.fin_mk] at hz1 hz2 ⊢
            omega
          obtain ⟨eh, out, heq, hbeh, hvout, hsep, hbgn⟩ :=
            ih b1 eu (by omega) hrestval hpair'
          refine ⟨eh, out, ?_, hbeh, hvout, hsep, hbgn⟩
          simp only [sweepLoop, hnb, hi, hcond, hu, heq]

theorem fill_items_cons_ok (x : Interval) (xs : List Interval)
    (hval : ∀ iv ∈ x :: xs, iv.Valid) (s : List Interval)
    (hsort : pySorted (x :: xs) = .ok s) :
    ∃ l, sweepLoop (skipEmpty s).1 (skipEmpty s).2 = .ok l ∧
      (∀ iv ∈ l, ∃ b e, iv = Interval.mk b e ∧ b ≤ e) ∧
      l.Chain' bgnLt ∧ l.Chain' sep := by
  rcases pySorted_tru (x :: xs) s hsort with htru | hsingle
  · obtain ⟨hlen, hmem⟩ := pySorted_mem _ _ hsort
    have hsorted := pySorted_sorted _ _ hsort
    cases s with
    | nil => simp at hlen
    | cons w ws =>
      have hwmem : w ∈ x :: xs := (hmem w).mp (List.mem_cons_self _ _)
      have hwtru : w.tru = true := htru w hwmem
      obtain ⟨bw, ew, hw, hvw⟩ : ∃ b e, w = Interval.mk b e ∧ b ≤ e := by
        cases w with
        | empty => simp [Interval.tru] at hwtru
        | mk b e => exact ⟨b, e, rfl, hval _ hwmem⟩
      subst hw
      rw [skipEmpty_cons_tru hwtru]
      have hvws : ∀ z ∈ ws, ∃ b e, z = Interval.mk b e ∧ b ≤ e := by
        intro z hz
        have hz' : z ∈ x :: xs := (hmem z).mp (List.mem_cons_of_mem _ hz)
        have htz : z.tru = true := htru z hz'
        cases z with
        | empty => simp [Interval.tru] at htz
        | mk b e => exact ⟨b, e, rfl, hval _ hz'⟩
      obtain ⟨eh, out, heq, hbeh, hvout, hsep, hbgn⟩ :=
        sweepLoop_spec ws bw ew hvw hvws hsorted
      exact ⟨Interval.mk bw eh :: out, heq, hvout, hbgn, hsep⟩
  · injection hsingle with h1 h2
    subst h1
    subst h2
    have hsval : s = [EMPTY_INTERVAL] := by
      simp only [pySorted, pyInsert] at hsort
      injection hsort with hsort
      exact hsort.symm
    subst hsval
    refine ⟨[], ?_, by simp, by simp, by simp⟩
    rfl

/-- C6: every `IntervalSet` instance is built by `_fill_items` (the
constructor runs it, and every public set operation returns
`IntervalSet(*new_items)` or an existing instance), so it suffices that any
successful run of `_fill_items` on factory-valid intervals yields a sequence
that is strictly increasing by `begin`, has `i.end < j.begin` for every
adjacent pair, and contains no Empty member. -/
theorem C6_constructor_invariants (items l : List Interval)
    (hval : ∀ iv ∈ items, iv.Valid) (h : fill_items items = .ok l) :
    (∀ iv ∈ l, iv ≠ EMPTY_INTERVAL) ∧ l.Chain' bgnLt ∧ l.Chain' sep := by
  cases items with
  | nil =>
    simp only [fill_items] at h
    injection h with h
    subst h
    simp
  | cons x xs =>
    simp only [fill_items] at h
    split at h
    · exact Except.noConfusion h
    · rename_i s hsort
      obtain ⟨l2, heq, hvl2, hbgn, hsep⟩ := fill_items_cons_ok x xs hval s hsort
      rw [heq] at h
      injection h with h
      subst h
      refine ⟨?_, hbgn, hsep⟩
      intro iv hiv
      obtain ⟨b, e, hivm, _⟩ := hvl2 iv hiv
      subst hivm
      intro hfalse
      exact Interval.noConfusion hfalse

theorem C6_constructor_invariants_witness :
    (∀ iv ∈ [Interval.mk 3 4, Interval.mk 1 2, Interval.mk 2 3], iv.Valid) ∧
    fill_items [Interval.mk 3 4, Interval.mk 1 2, Interval.mk 2 3] = .ok [Interval.mk 1 4] ∧
    ((∀ iv ∈ [Interval.mk 1 4], iv ≠ EMPTY_INTERVAL) ∧
      [Interval.mk (1 : Int) 4].Chain' bgnLt ∧ [Interval.mk (1 : Int) 4].Chain' sep) :=
  ⟨by decide, rfl,
    C6_constructor_invariants [Interval.mk 3 4, Interval.mk 1 2, Interval.mk 2 3]
      [Interval.mk 1 4] (by decide) rfl⟩

/-- C10: on any collection of factory-valid intervals, `_fill_items` never
raises the defensive `Exception("Internal error")`: the sort either raises
`TypeError` (when the Empty value meets another item) or succeeds, and on a
successfully sorted sequence every adjacent pair is strictly-before,
overlapping, or exactly touching, so the sweep always takes a recognized
branch. -/
theorem C10_internal_error_unreachable (items : List Interval)
    (hval : ∀ iv ∈ items, iv.Valid) :
    fill_items items ≠ .error .internalError := by
  cases items with
  | nil =>
    intro h
    exact Except.noConfusion h
  | cons x xs =>
    intro h
    simp only [fill_items] at h
    split at h
    · rename_i err hserr
      injection h with h
      have ht := pySorted_err _ _ hserr
      rw [ht] at h
      exact PyErr.noConfusion h
    · rename_i s hsort
      obtain ⟨l2, heq, _, _, _⟩ := fill_items_cons_ok x xs hval s hsort
      rw [heq] at h
      exact Except.noConfusion h

theorem C10_internal_error_unreachable_witness :
    (∀ iv ∈ [Interval.mk 2 3, EMPTY_INTERVAL, Interval.mk 1 5], iv.Valid) ∧
    fill_items [Interval.mk 2 3, EMPTY_INTERVAL, Interval.mk 1 5] ≠ .error .internalError :=
  ⟨by decide,
    C10_internal_error_unreachable [Interval.mk 2 3, EMPTY_INTERVAL, Interval.mk 1 5]
      (by decide)⟩

end Intervalset
